import Mathlib

/- Shallow embedding of the protein structure prediction app
   (src/app.py and src/app2.py).  Sequences and pieces of text are modelled
   as List Char.  Python float arithmetic over the fixed weight table is
   modelled exactly over the rationals: every value the program rounds is an
   exact multiple of 1/100, where the tie-breaking rule of round never fires,
   so exact rational arithmetic agrees with the intended table values. -/

namespace ProteinApp

/-- Whitespace set of Python str.strip / str.isspace (ASCII range):
    space, tab, newline, carriage return, vertical tab, form feed. -/
def isPySpace (c : Char) : Bool :=
  c == ' ' || c == '\t' || c == '\n' || c == '\r' || c == Char.ofNat 11 || c == Char.ofNat 12

/-- Python str.strip: drop whitespace at both ends (src/app2.py lines 171 and 177). -/
def pyStrip (l : List Char) : List Char :=
  ((l.dropWhile isPySpace).reverse.dropWhile isPySpace).reverse

/-- Python str.upper on text: uppercase every character. -/
def pyUpper (l : List Char) : List Char := l.map Char.toUpper

/-- Python s.replace(c, empty string): remove every occurrence of the character c. -/
def pyRemoveChar (c : Char) (l : List Char) : List Char := l.filter (fun x => x != c)

/-- Text-channel normalization (src/app2.py lines 166-171):
    the entered text run through .strip(), .upper(), removal of spaces,
    removal of newlines, in that order. -/
def normalize_text (raw : List Char) : List Char :=
  pyRemoveChar '\n' (pyRemoveChar ' ' (pyUpper (pyStrip raw)))

/-- Python s.split(sep) for a one-character separator: split at every
    occurrence, keeping empty pieces; the empty text yields one empty piece. -/
def pySplit (sep : Char) : List Char → List (List Char)
  | [] => [[]]
  | c :: t =>
    match pySplit sep t with
    | [] => [[c]]
    | h :: r => if c = sep then [] :: h :: r else (c :: h) :: r

/-- Python line.startswith(c) for a one-character marker. -/
def pyStartsWith (c : Char) (l : List Char) : Bool :=
  match l with
  | [] => false
  | a :: _ => a == c

/-- File-channel normalization (src/app2.py lines 173-180): decode the file,
    strip the whole content, split into lines, discard lines that start with
    the FASTA marker, strip each remaining line, concatenate, uppercase. -/
def normalize_file (content : List Char) : List Char :=
  let lines := pySplit '\n' (pyStrip content)
  let sequence_lines := (lines.filter (fun line => !pyStartsWith '>' line)).map pyStrip
  pyUpper sequence_lines.flatten

/-- The 20-letter amino-acid alphabet (src/app2.py line 149). -/
def valid_aa : List Char := "ACDEFGHIKLMNPQRSTVWY".toList

/-- is_valid_sequence (src/app2.py lines 147-150): every character of the
    uppercased sequence must belong to valid_aa. -/
def is_valid_sequence (sequence : List Char) : Bool :=
  (pyUpper sequence).all (fun aa => valid_aa.contains aa)

/-- Weight table aa_weights (src/app2.py lines 89-94), combined with the
    default of aa_weights.get(aa, 0) at line 105: a letter outside the table
    weighs 0. -/
def aa_weights (aa : Char) : ℚ :=
  match aa with
  | 'A' => 89.09 | 'R' => 174.20 | 'N' => 132.12 | 'D' => 133.10 | 'C' => 121.16
  | 'Q' => 146.15 | 'E' => 147.13 | 'G' => 75.07 | 'H' => 155.16 | 'I' => 131.17
  | 'L' => 131.17 | 'K' => 146.19 | 'M' => 149.21 | 'F' => 165.19 | 'P' => 115.13
  | 'S' => 105.09 | 'T' => 119.12 | 'W' => 204.23 | 'Y' => 181.19 | 'V' => 117.15
  | _ => 0

/-- Distinct characters of a list in first-occurrence order: the key order of
    the Python dict built by the counting loop at src/app2.py lines 97-102. -/
def pyKeys : List Char → List Char
  | [] => []
  | a :: t => a :: (pyKeys t).filter (fun b => b != a)

/-- The dict aa_count built at src/app2.py lines 97-102: the distinct letters
    in first-occurrence order, each paired with its number of occurrences. -/
def aa_count (sequence : List Char) : List (Char × Nat) :=
  (pyKeys sequence).map (fun aa => (aa, sequence.count aa))

/-- mol_weight (src/app2.py line 105): sum over the dict items of the table
    weight of the letter times its count. -/
def mol_weight (sequence : List Char) : ℚ :=
  ((aa_count sequence).map (fun p => aa_weights p.1 * (p.2 : ℚ))).sum

/-- basic_aa (src/app2.py line 109). -/
def basic_aa (sequence : List Char) : Nat :=
  sequence.count 'R' + sequence.count 'K' + sequence.count 'H'

/-- acidic_aa (src/app2.py line 110). -/
def acidic_aa (sequence : List Char) : Nat :=
  sequence.count 'D' + sequence.count 'E'

/-- Python round(x, 2).  Every value the program rounds is an exact multiple
    of 1/100 (the table entries have two decimals and the pi estimate one),
    so rounding is the identity there and the tie-breaking rule of the Python
    float round never fires; floor of x*100 + 1/2 is a faithful model. -/
def round2 (q : ℚ) : ℚ := (⌊q * 100 + 1/2⌋ : ℚ) / 100

/-- pi_est before clamping (src/app2.py line 111): the counts subtract as
    Python ints, hence through ℤ. -/
def pi_est_raw (sequence : List Char) : ℚ :=
  7.0 + 0.1 * (((basic_aa sequence : ℤ) - (acidic_aa sequence : ℤ) : ℤ) : ℚ)

/-- pi_est after the clamp at src/app2.py line 112: max(1.0, min(14.0, pi_est)). -/
def pi_est (sequence : List Char) : ℚ := max 1.0 (min 14.0 (pi_est_raw sequence))

/-- Result record of calculate_protein_properties (src/app2.py lines 114-119). -/
structure ProteinProps where
  length : Nat
  molecular_weight : ℚ
  estimated_pi : ℚ
  aa_composition : List (Char × Nat)
deriving DecidableEq

/-- calculate_protein_properties (src/app2.py lines 86-119). -/
def calculate_protein_properties (sequence : List Char) : ProteinProps :=
  { length := sequence.length
    molecular_weight := round2 (mol_weight sequence)
    estimated_pi := round2 (pi_est sequence)
    aa_composition := aa_count sequence }

/-- total_aa of show_protein_info (src/app2.py line 138): sum of the dict values. -/
def total_aa (aa_comp : List (Char × Nat)) : Nat := (aa_comp.map (fun p => p.2)).sum

/-- aa_percentages of show_protein_info (src/app2.py line 139). -/
def aa_percentages (aa_comp : List (Char × Nat)) : List (Char × ℚ) :=
  aa_comp.map (fun p => (p.1, ((p.2 : ℚ) / (total_aa aa_comp : ℚ)) * 100))

/-- sorted_aa of show_protein_info (src/app2.py line 142): stable sort of the
    percentage items by percentage, descending. -/
def sorted_aa (aa_comp : List (Char × Nat)) : List (Char × ℚ) :=
  (aa_percentages aa_comp).mergeSort (fun x y => decide (y.2 ≤ x.2))

/-- An outbound HTTP POST as issued by predict_structure (src/app2.py lines
    72-76) and by src/app.py lines 15-19. -/
structure Request where
  url : String
  content_type : String
  body : List Char
deriving DecidableEq

/-- A response of the folding service: status code and body text. -/
structure Response where
  status_code : Nat
  text : List Char
deriving DecidableEq

/-- The single POST request: fixed endpoint, form-encoded content type
    declared, raw sequence as body. -/
def esmatlas_request (sequence : List Char) : Request :=
  { url := "https://api.esmatlas.com/foldSequence/v1/pdb/"
    content_type := "application/x-www-form-urlencoded"
    body := sequence }

/-- Message of st.error at src/app2.py line 80, built from the status code and
    the response body. -/
def service_error_msg (status : Nat) (body : List Char) : List Char :=
  "Error: ".toList ++ (Nat.repr status).toList ++ " - ".toList ++ body

/-- Message of st.error at src/app2.py line 83, built from the exception detail. -/
def request_failed_msg (detail : List Char) : List Char :=
  "Request failed: ".toList ++ detail

/-- What one call of predict_structure produces: the returned value, the error
    messages shown, and the POST requests issued. -/
structure PredictResult where
  payload : Option (List Char)
  errors : List (List Char)
  posts : List Request
deriving DecidableEq

/-- predict_structure (src/app2.py lines 70-84).  The network is shallowly
    embedded as a function from the request to either a response or the
    message of a raised RequestException. -/
def predict_structure (sequence : List Char)
    (net : Request → Except (List Char) Response) : PredictResult :=
  let req := esmatlas_request sequence
  match net req with
  | Except.ok response =>
    if response.status_code = 200 then
      { payload := some response.text, errors := [], posts := [req] }
    else
      { payload := none,
        errors := [service_error_msg response.status_code response.text],
        posts := [req] }
  | Except.error e =>
    { payload := none, errors := [request_failed_msg e], posts := [req] }

/-- Python truthiness of the pdb_str value at src/app2.py line 235: None and
    the empty string are falsy, any other string is truthy. -/
def pyTruthy (s : Option (List Char)) : Bool :=
  match s with
  | none => false
  | some t => !t.isEmpty

/-- Observable outcome of one activation of the text-entry tab of app
    (src/app2.py lines 164-250). -/
structure ShellOutcome where
  invalid_error : Bool
  length_warning : Bool
  length_error : Bool
  analysis_run : Bool
  posts : List Request
  service_errors : List (List Char)
  success_shown : Bool
  rendered : Bool
  download : Option (List Char)
deriving DecidableEq

/-- The outcome in which nothing beyond the input widgets happened. -/
def shell_idle : ShellOutcome :=
  { invalid_error := false, length_warning := false, length_error := false,
    analysis_run := false, posts := [], service_errors := [],
    success_shown := false, rendered := false, download := none }

/-- The text-entry flow of app (src/app2.py lines 164-250): normalize the
    entered text; an empty sequence is falsy at line 196 and nothing runs; an
    invalid sequence raises the inline error at line 202 and is cleared, so
    the gate at line 206 fails; otherwise the long-sequence warning of line
    213 shows, and a click runs the length-ceiling check of line 217, then the
    composition analysis (lines 229-230), then predict_structure (line 233),
    and the truthiness gate at line 235 decides success box, rendering and
    download. -/
def app_text_action (raw : List Char) (clicked : Bool)
    (net : Request → Except (List Char) Response) : ShellOutcome :=
  let sequence := normalize_text raw
  if sequence.isEmpty then shell_idle
  else if !is_valid_sequence sequence then { shell_idle with invalid_error := true }
  else
    let warn := decide (sequence.length > 400)
    if !clicked then { shell_idle with length_warning := warn }
    else if sequence.length > 1000 then
      { shell_idle with length_warning := warn, length_error := true }
    else
      let pr := predict_structure sequence net
      { invalid_error := false, length_warning := warn, length_error := false,
        analysis_run := true, posts := pr.posts, service_errors := pr.errors,
        success_shown := pyTruthy pr.payload, rendered := pyTruthy pr.payload,
        download := if pyTruthy pr.payload then pr.payload else none }

/-- Observable outcome of one activation of src/app.py. -/
structure AppPyOutcome where
  empty_error : Bool
  posts : List Request
  error_msgs : List (List Char)
  rendered_payload : Option (List Char)
  uncaught : Option (List Char)
deriving DecidableEq

/-- The button flow of src/app.py (lines 10-29): a blank sequence raises an
    inline error; otherwise one POST carries the raw sequence; status 200
    renders the body; any other status shows a fixed failure message; there is
    no try/except, so a transport failure propagates as an uncaught
    exception. -/
def app_py_action (sequence : List Char)
    (net : Request → Except (List Char) Response) : AppPyOutcome :=
  if (pyStrip sequence).isEmpty then
    { empty_error := true, posts := [], error_msgs := [], rendered_payload := none,
      uncaught := none }
  else
    let req := esmatlas_request sequence
    match net req with
    | Except.ok response =>
      if response.status_code = 200 then
        { empty_error := false, posts := [req], error_msgs := [],
          rendered_payload := some response.text, uncaught := none }
      else
        { empty_error := false, posts := [req],
          error_msgs := ["Prediction failed. Please try again.".toList],
          rendered_payload := none, uncaught := none }
    | Except.error e =>
      { empty_error := false, posts := [req], error_msgs := [],
        rendered_payload := none, uncaught := some e }

/-- Amended-specification text normalization, written from the amended words
    of claim C6, for comparison with normalize_text: trim surrounding
    whitespace, uppercase, and drop every space and newline. -/
def spec_text_norm (raw : List Char) : List Char :=
  ((pyStrip raw).map Char.toUpper).filter (fun c => !(c == ' ' || c == '\n'))

/-- Amended-specification file normalization, written from the amended words
    of claim C6, for comparison with normalize_file: trim the content, drop
    the lines that begin with the FASTA marker, uppercase each remaining line
    trimmed of its surrounding whitespace, and concatenate. -/
def spec_file_norm (content : List Char) : List Char :=
  (((pySplit '\n' (pyStrip content)).filter (fun l => l.head? != some '>')).map
    (fun l => (pyStrip l).map Char.toUpper)).flatten

/-! ### Character-level helper lemmas -/

theorem toNat_ofNat_small (m : Nat) (hm : m < 55296) : (Char.ofNat m).toNat = m := by
  rw [Char.ofNat, dif_pos (Or.inl (by omega))]
  simp [Char.ofNatAux, Char.toNat, UInt32.toNat]

theorem char_eq_iff_toNat {a b : Char} : a = b ↔ a.toNat = b.toNat := by
  constructor
  · intro h; rw [h]
  · intro h
    apply Char.ext
    exact UInt32.toNat.inj h

theorem toUpper_toNat (c : Char) :
    (97 ≤ c.toNat ∧ c.toNat ≤ 122 ∧ c.toUpper.toNat = c.toNat - 32) ∨ c.toUpper = c := by
  by_cases h : c.toNat ≥ 97 ∧ c.toNat ≤ 122
  · left
    refine ⟨h.1, h.2, ?_⟩
    simp only [Char.toUpper, h, and_self, if_true]
    exact toNat_ofNat_small _ (by omega)
  · right
    simp only [Char.toUpper, h, if_false]

theorem isPySpace_iff_toNat (c : Char) :
    isPySpace c = true ↔
      (c.toNat = 32 ∨ c.toNat = 9 ∨ c.toNat = 10 ∨ c.toNat = 13 ∨
        c.toNat = 11 ∨ c.toNat = 12) := by
  have e1 : (' ').toNat = 32 := rfl
  have e2 : ('\t').toNat = 9 := rfl
  have e3 : ('\n').toNat = 10 := rfl
  have e4 : ('\r').toNat = 13 := rfl
  have e5 : (Char.ofNat 11).toNat = 11 := toNat_ofNat_small 11 (by omega)
  have e6 : (Char.ofNat 12).toNat = 12 := toNat_ofNat_small 12 (by omega)
  unfold isPySpace
  simp only [Bool.or_eq_true, beq_iff_eq, char_eq_iff_toNat, e1, e2, e3, e4, e5, e6]
  tauto

theorem isPySpace_toUpper (c : Char) : isPySpace c.toUpper = isPySpace c := by
  rcases toUpper_toNat c with ⟨h1, h2, h3⟩ | h
  · have hc : isPySpace c = false := by
      cases hx : isPySpace c
      · rfl
      · have := (isPySpace_iff_toNat c).mp hx
        omega
    have hu : isPySpace c.toUpper = false := by
      cases hx : isPySpace c.toUpper
      · rfl
      · have := (isPySpace_iff_toNat c.toUpper).mp hx
        omega
    rw [hc, hu]
  · rw [h]

theorem toUpper_toUpper (c : Char) : c.toUpper.toUpper = c.toUpper := by
  rcases toUpper_toNat c with ⟨h1, h2, h3⟩ | h
  · rcases toUpper_toNat c.toUpper with ⟨g1, g2, g3⟩ | g
    · omega
    · exact g
  · rw [h, h]

theorem toUpper_eq_nonletter {c x : Char}
    (hx : x.toNat < 65 ∨ (90 < x.toNat ∧ x.toNat < 97)) (h : c.toUpper = x) : c = x := by
  rcases toUpper_toNat c with ⟨h1, h2, h3⟩ | hfix
  · have := char_eq_iff_toNat.mp h
    omega
  · rw [← hfix]; exact h

/-! ### Strip-level helper lemmas -/

theorem dropWhile_eq_self_of_head (l : List Char)
    (h : ∀ a, l.head? = some a → isPySpace a = false) : l.dropWhile isPySpace = l := by
  cases l with
  | nil => rfl
  | cons a t => simp [List.dropWhile_cons, h a rfl]

theorem pyStrip_head (l : List Char) :
    ∀ a, (pyStrip l).head? = some a → isPySpace a = false := by
  intro a ha
  unfold pyStrip at ha
  rw [List.head?_reverse] at ha
  obtain ⟨pre, hpre⟩ :=
    List.dropWhile_suffix (l := (l.dropWhile isPySpace).reverse) isPySpace
  have hA : ((l.dropWhile isPySpace).reverse).getLast? = some a := by
    rw [← hpre, List.getLast?_append, ha]
    rfl
  rw [List.getLast?_reverse] at hA
  have h2 := List.head?_dropWhile_not isPySpace l
  rw [hA] at h2
  simpa using h2

theorem pyStrip_last (l : List Char) :
    ∀ a, (pyStrip l).getLast? = some a → isPySpace a = false := by
  intro a ha
  unfold pyStrip at ha
  rw [List.getLast?_reverse] at ha
  have h2 := List.head?_dropWhile_not isPySpace (l.dropWhile isPySpace).reverse
  rw [ha] at h2
  simpa using h2

theorem pyStrip_eq_self (l : List Char)
    (h1 : ∀ a, l.head? = some a → isPySpace a = false)
    (h2 : ∀ a, l.getLast? = some a → isPySpace a = false) : pyStrip l = l := by
  unfold pyStrip
  rw [dropWhile_eq_self_of_head l h1]
  rw [dropWhile_eq_self_of_head l.reverse
    (by intro a ha; exact h2 a (by rwa [List.head?_reverse] at ha))]
  exact List.reverse_reverse l

theorem mem_pyStrip {d : Char} {l : List Char} (h : d ∈ pyStrip l) : d ∈ l := by
  unfold pyStrip at h
  rw [List.mem_reverse] at h
  obtain ⟨pre, hpre⟩ :=
    List.dropWhile_suffix (l := (l.dropWhile isPySpace).reverse) isPySpace
  have : d ∈ (l.dropWhile isPySpace).reverse := by
    rw [← hpre]
    exact List.mem_append_right pre h
  rw [List.mem_reverse] at this
  obtain ⟨pre2, hpre2⟩ := List.dropWhile_suffix (l := l) isPySpace
  rw [← hpre2]
  exact List.mem_append_right pre2 this

/-! ### Preservation of stripped ends through uppercase and filtering -/

theorem goodHead_pyUpper (l : List Char)
    (h : ∀ a, l.head? = some a → isPySpace a = false) :
    ∀ a, (pyUpper l).head? = some a → isPySpace a = false := by
  intro a ha
  unfold pyUpper at ha
  rw [List.head?_map] at ha
  cases hl : l.head? with
  | none => rw [hl] at ha; simp at ha
  | some b =>
    rw [hl] at ha
    simp only [Option.map_some', Option.some.injEq] at ha
    rw [← ha, isPySpace_toUpper]
    exact h b hl

theorem goodLast_pyUpper (l : List Char)
    (h : ∀ a, l.getLast? = some a → isPySpace a = false) :
    ∀ a, (pyUpper l).getLast? = some a → isPySpace a = false := by
  intro a ha
  unfold pyUpper at ha
  rw [List.getLast?_map] at ha
  cases hl : l.getLast? with
  | none => rw [hl] at ha; simp at ha
  | some b =>
    rw [hl] at ha
    simp only [Option.map_some', Option.some.injEq] at ha
    rw [← ha, isPySpace_toUpper]
    exact h b hl

theorem goodHead_filter (q : Char → Bool) (l : List Char)
    (hq : ∀ x, q x = false → isPySpace x = true)
    (h : ∀ a, l.head? = some a → isPySpace a = false) :
    ∀ a, (l.filter q).head? = some a → isPySpace a = false := by
  cases l with
  | nil => intro a ha; simp at ha
  | cons b t =>
    have hb : isPySpace b = false := h b rfl
    have hqb : q b = true := by
      cases hqb : q b
      · rw [hq b hqb] at hb; cases hb
      · rfl
    intro a ha
    rw [List.filter_cons_of_pos hqb] at ha
    simp only [List.head?_cons, Option.some.injEq] at ha
    rwa [← ha]

theorem goodLast_filter (q : Char → Bool) (l : List Char)
    (hq : ∀ x, q x = false → isPySpace x = true)
    (h : ∀ a, l.getLast? = some a → isPySpace a = false) :
    ∀ a, (l.filter q).getLast? = some a → isPySpace a = false := by
  intro a ha
  rw [List.getLast?_eq_head?_reverse, ← List.filter_reverse] at ha
  exact goodHead_filter q l.reverse hq
    (fun b hb => h b (by rwa [List.getLast?_eq_head?_reverse])) a ha

/-! ### Shape of the text-channel normal form -/

theorem normalize_text_goodHead (raw : List Char) :
    ∀ a, (normalize_text raw).head? = some a → isPySpace a = false := by
  unfold normalize_text pyRemoveChar
  apply goodHead_filter
  · intro x hx
    simp only [bne, Bool.not_eq_false'] at hx
    rw [(beq_iff_eq).mp hx]
    rfl
  · apply goodHead_filter
    · intro x hx
      simp only [bne, Bool.not_eq_false'] at hx
      rw [(beq_iff_eq).mp hx]
      rfl
    · exact goodHead_pyUpper _ (pyStrip_head raw)

theorem normalize_text_goodLast (raw : List Char) :
    ∀ a, (normalize_text raw).getLast? = some a → isPySpace a = false := by
  unfold normalize_text pyRemoveChar
  apply goodLast_filter
  · intro x hx
    simp only [bne, Bool.not_eq_false'] at hx
    rw [(beq_iff_eq).mp hx]
    rfl
  · apply goodLast_filter
    · intro x hx
      simp only [bne, Bool.not_eq_false'] at hx
      rw [(beq_iff_eq).mp hx]
      rfl
    · exact goodLast_pyUpper _ (pyStrip_last raw)

theorem mem_normalize_text {c : Char} {raw : List Char} (h : c ∈ normalize_text raw) :
    c ≠ '\n' ∧ c ≠ ' ' ∧ c.toUpper = c := by
  unfold normalize_text pyRemoveChar at h
  have h1 := List.of_mem_filter h
  have h2 := List.mem_of_mem_filter h
  have h3 := List.of_mem_filter h2
  have h4 := List.mem_of_mem_filter h2
  unfold pyUpper at h4
  rw [List.mem_map] at h4
  obtain ⟨d, _, hd⟩ := h4
  refine ⟨by simpa using h1, by simpa using h3, ?_⟩
  rw [← hd]
  exact toUpper_toUpper d

theorem pyUpper_idem (l : List Char) : pyUpper (pyUpper l) = pyUpper l := by
  unfold pyUpper
  rw [List.map_map]
  exact List.map_congr_left (fun c _ => toUpper_toUpper c)

theorem normalize_text_idem (raw : List Char) :
    normalize_text (normalize_text raw) = normalize_text raw := by
  have hstrip : pyStrip (normalize_text raw) = normalize_text raw :=
    pyStrip_eq_self _ (normalize_text_goodHead raw) (normalize_text_goodLast raw)
  show pyRemoveChar '\n' (pyRemoveChar ' ' (pyUpper (pyStrip (normalize_text raw)))) = _
  rw [hstrip]
  have hup : pyUpper (normalize_text raw) = normalize_text raw := by
    unfold pyUpper
    calc (normalize_text raw).map Char.toUpper
        = (normalize_text raw).map (fun c => c) :=
          List.map_congr_left (fun c hc => (mem_normalize_text hc).2.2)
      _ = normalize_text raw := List.map_id _
  rw [hup]
  have hf1 : List.filter (fun x => x != ' ') (normalize_text raw) = normalize_text raw :=
    List.filter_eq_self.mpr (fun a ha => bne_iff_ne.mpr (mem_normalize_text ha).2.1)
  have hf2 : List.filter (fun x => x != '\n') (normalize_text raw) = normalize_text raw :=
    List.filter_eq_self.mpr (fun a ha => bne_iff_ne.mpr (mem_normalize_text ha).1)
  unfold pyRemoveChar
  rw [hf1, hf2]

/-! ### Split-level helper lemmas and the file-channel normal form -/

theorem pySplit_ne_nil (sep : Char) (l : List Char) : pySplit sep l ≠ [] := by
  cases l with
  | nil => simp [pySplit]
  | cons c t =>
    unfold pySplit
    cases pySplit sep t with
    | nil => simp
    | cons h r =>
      by_cases hc : c = sep <;> simp [hc]

theorem pySplit_no_sep (sep : Char) (l : List Char) :
    ∀ piece ∈ pySplit sep l, sep ∉ piece := by
  induction l with
  | nil =>
    intro piece hp
    simp only [pySplit, List.mem_singleton] at hp
    rw [hp]
    exact List.not_mem_nil sep
  | cons c t ih =>
    intro piece hp
    unfold pySplit at hp
    cases hsp : pySplit sep t with
    | nil => exact absurd hsp (pySplit_ne_nil sep t)
    | cons h r =>
      rw [hsp] at hp
      dsimp only at hp
      by_cases hc : c = sep
      · rw [if_pos hc] at hp
        rcases List.mem_cons.mp hp with hp1 | hp2
        · rw [hp1]; exact List.not_mem_nil sep
        · exact ih piece (hsp ▸ hp2)
      · rw [if_neg hc] at hp
        rcases List.mem_cons.mp hp with hp1 | hp2
        · rw [hp1]
          intro hmem
          rcases List.mem_cons.mp hmem with h1 | h2
          · exact hc h1.symm
          · exact ih h (hsp ▸ List.mem_cons_self h r) h2
        · exact ih piece (hsp ▸ List.mem_cons_of_mem h hp2)

theorem pySplit_of_no_sep (sep : Char) (l : List Char) (h : sep ∉ l) :
    pySplit sep l = [l] := by
  induction l with
  | nil => rfl
  | cons c t ih =>
    have hct : sep ∉ t := fun hm => h (List.mem_cons_of_mem c hm)
    have hcs : c ≠ sep := fun he => h (he ▸ List.mem_cons_self c t)
    unfold pySplit
    rw [ih hct]
    dsimp only
    rw [if_neg (fun he => hcs he)]

theorem no_newline_normalize_file (content : List Char) :
    '\n' ∉ normalize_file content := by
  intro hmem
  unfold normalize_file pyUpper at hmem
  rw [List.mem_map] at hmem
  obtain ⟨d, hd, hup⟩ := hmem
  have hdn : d = '\n' := toUpper_eq_nonletter (Or.inl (by decide)) hup
  rw [hdn] at hd
  rw [List.mem_flatten] at hd
  obtain ⟨piece, hpiece, hin⟩ := hd
  rw [List.mem_map] at hpiece
  obtain ⟨line, hline, hstr⟩ := hpiece
  have hlm := List.mem_of_mem_filter hline
  have : ('\n' : Char) ∈ line := by
    rw [← hstr] at hin
    exact mem_pyStrip hin
  exact pySplit_no_sep '\n' (pyStrip content) line hlm this

theorem goodHead_flatten (L : List (List Char))
    (h : ∀ l ∈ L, ∀ a, l.head? = some a → isPySpace a = false) :
    ∀ a, L.flatten.head? = some a → isPySpace a = false := by
  induction L with
  | nil => intro a ha; simp at ha
  | cons l t ih =>
    intro a ha
    rw [List.flatten_cons, List.head?_append] at ha
    cases hl : l.head? with
    | none =>
      rw [hl] at ha
      simp only [Option.none_or] at ha
      exact ih (fun m hm => h m (List.mem_cons_of_mem l hm)) a ha
    | some b =>
      rw [hl] at ha
      simp only [Option.or_some, Option.some.injEq] at ha
      rw [← ha]
      exact h l (List.mem_cons_self l t) b hl

theorem goodLast_flatten (L : List (List Char))
    (h : ∀ l ∈ L, ∀ a, l.getLast? = some a → isPySpace a = false) :
    ∀ a, L.flatten.getLast? = some a → isPySpace a = false := by
  induction L with
  | nil => intro a ha; simp at ha
  | cons l t ih =>
    intro a ha
    rw [List.flatten_cons, List.getLast?_append] at ha
    cases hl : t.flatten.getLast? with
    | none =>
      rw [hl] at ha
      simp only [Option.none_or] at ha
      exact h l (List.mem_cons_self l t) a ha
    | some b =>
      rw [hl] at ha
      simp only [Option.or_some, Option.some.injEq] at ha
      rw [← ha]
      exact ih (fun m hm => h m (List.mem_cons_of_mem l hm)) b hl

theorem normalize_file_goodHead (content : List Char) :
    ∀ a, (normalize_file content).head? = some a → isPySpace a = false := by
  unfold normalize_file
  apply goodHead_pyUpper
  apply goodHead_flatten
  intro l hl
  rw [List.mem_map] at hl
  obtain ⟨line, _, hline⟩ := hl
  rw [← hline]
  exact pyStrip_head line

theorem normalize_file_goodLast (content : List Char) :
    ∀ a, (normalize_file content).getLast? = some a → isPySpace a = false := by
  unfold normalize_file
  apply goodLast_pyUpper
  apply goodLast_flatten
  intro l hl
  rw [List.mem_map] at hl
  obtain ⟨line, _, hline⟩ := hl
  rw [← hline]
  exact pyStrip_last line

theorem normalize_file_idem (content : List Char)
    (h : (normalize_file content).head? ≠ some '>') :
    normalize_file (normalize_file content) = normalize_file content := by
  have hnl : ('\n' : Char) ∉ normalize_file content := no_newline_normalize_file content
  have hstrip : pyStrip (normalize_file content) = normalize_file content :=
    pyStrip_eq_self _ (normalize_file_goodHead content) (normalize_file_goodLast content)
  have hsw : pyStartsWith '>' (normalize_file content) = false := by
    cases hr : normalize_file content with
    | nil => rfl
    | cons a t =>
      have : a ≠ '>' := by
        intro he
        apply h
        rw [hr, he]
        rfl
      unfold pyStartsWith
      exact beq_eq_false_iff_ne.mpr this
  show pyUpper _ = _
  rw [hstrip, pySplit_of_no_sep '\n' _ hnl]
  rw [List.filter_cons, hsw]
  simp only [Bool.not_false, if_true, List.filter_nil, List.map_cons, List.map_nil,
    List.flatten_cons, List.flatten_nil, List.append_nil]
  rw [hstrip]
  show pyUpper (normalize_file content) = normalize_file content
  unfold normalize_file
  exact pyUpper_idem _

/-! ### Counting and summation helper lemmas -/

theorem pyKeys_mem (b : Char) (l : List Char) : b ∈ pyKeys l ↔ b ∈ l := by
  induction l with
  | nil => simp [pyKeys]
  | cons a t ih =>
    simp only [pyKeys, List.mem_cons, List.mem_filter, ih, bne_iff_ne]
    constructor
    · rintro (h | ⟨h1, h2⟩)
      · exact Or.inl h
      · exact Or.inr h1
    · rintro (h | h)
      · exact Or.inl h
      · by_cases hb : b = a
        · exact Or.inl hb
        · exact Or.inr ⟨h, hb⟩

theorem pyKeys_nodup (l : List Char) : (pyKeys l).Nodup := by
  induction l with
  | nil => simp [pyKeys]
  | cons a t ih =>
    simp only [pyKeys, List.nodup_cons]
    constructor
    · intro hmem
      have := (List.mem_filter.mp hmem).2
      simp [bne_iff_ne] at this
    · exact ih.filter _

theorem pyKeys_toFinset (l : List Char) : (pyKeys l).toFinset = l.toFinset := by
  ext x
  simp [List.mem_toFinset, pyKeys_mem]

theorem sum_over_pyKeys {M : Type} [AddCommMonoid M] (l : List Char) (f : Char → M) :
    ((pyKeys l).map (fun a => l.count a • f a)).sum = (l.map f).sum := by
  calc ((pyKeys l).map (fun a => l.count a • f a)).sum
      = (pyKeys l).toFinset.sum (fun a => l.count a • f a) :=
        (List.sum_toFinset _ (pyKeys_nodup l)).symm
    _ = l.toFinset.sum (fun a => l.count a • f a) := by rw [pyKeys_toFinset]
    _ = (l.map f).sum := (Finset.sum_list_map_count l f).symm

theorem total_aa_aa_count (s : List Char) : total_aa (aa_count s) = s.length := by
  unfold total_aa aa_count
  rw [List.map_map]
  have h := sum_over_pyKeys s (fun _ => (1 : ℕ))
  simp only [smul_eq_mul, mul_one] at h
  calc ((pyKeys s).map ((fun p => p.2) ∘ (fun aa => (aa, s.count aa)))).sum
      = ((pyKeys s).map (fun a => s.count a)).sum := rfl
    _ = (s.map (fun _ => (1 : ℕ))).sum := h
    _ = s.length := by simp [List.map_const', List.sum_replicate]

theorem mol_weight_eq_sum (s : List Char) : mol_weight s = (s.map aa_weights).sum := by
  unfold mol_weight aa_count
  rw [List.map_map]
  calc ((pyKeys s).map ((fun p => aa_weights p.1 * (p.2 : ℚ)) ∘
          (fun aa => (aa, s.count aa)))).sum
      = ((pyKeys s).map (fun a => s.count a • aa_weights a)).sum := by
        apply congrArg
        apply List.map_congr_left
        intro a _
        show aa_weights a * (s.count a : ℚ) = s.count a • aa_weights a
        rw [nsmul_eq_mul, mul_comm]
    _ = (s.map aa_weights).sum := sum_over_pyKeys s aa_weights

/-! ### Exact rational arithmetic around round(x, 2) -/

theorem aa_weights_centi (c : Char) : ∃ n : ℤ, aa_weights c = (n : ℚ) / 100 := by
  unfold aa_weights
  split
  · exact ⟨8909, by norm_num⟩
  · exact ⟨17420, by norm_num⟩
  · exact ⟨13212, by norm_num⟩
  · exact ⟨13310, by norm_num⟩
  · exact ⟨12116, by norm_num⟩
  · exact ⟨14615, by norm_num⟩
  · exact ⟨14713, by norm_num⟩
  · exact ⟨7507, by norm_num⟩
  · exact ⟨15516, by norm_num⟩
  · exact ⟨13117, by norm_num⟩
  · exact ⟨13117, by norm_num⟩
  · exact ⟨14619, by norm_num⟩
  · exact ⟨14921, by norm_num⟩
  · exact ⟨16519, by norm_num⟩
  · exact ⟨11513, by norm_num⟩
  · exact ⟨10509, by norm_num⟩
  · exact ⟨11912, by norm_num⟩
  · exact ⟨20423, by norm_num⟩
  · exact ⟨18119, by norm_num⟩
  · exact ⟨11715, by norm_num⟩
  · exact ⟨0, by norm_num⟩

theorem centi_add {a b : ℚ} (ha : ∃ n : ℤ, a = (n : ℚ) / 100)
    (hb : ∃ n : ℤ, b = (n : ℚ) / 100) : ∃ n : ℤ, a + b = (n : ℚ) / 100 := by
  obtain ⟨n, hn⟩ := ha
  obtain ⟨m, hm⟩ := hb
  exact ⟨n + m, by rw [hn, hm]; push_cast; ring⟩

theorem mol_weight_centi (s : List Char) : ∃ n : ℤ, mol_weight s = (n : ℚ) / 100 := by
  rw [mol_weight_eq_sum]
  induction s with
  | nil => exact ⟨0, by simp⟩
  | cons c t ih =>
    rw [List.map_cons, List.sum_cons]
    exact centi_add (aa_weights_centi c) ih

theorem round2_centi {q : ℚ} (h : ∃ n : ℤ, q = (n : ℚ) / 100) : round2 q = q := by
  obtain ⟨n, hn⟩ := h
  subst hn
  unfold round2
  have h1 : (n : ℚ) / 100 * 100 = (n : ℚ) := by field_simp
  rw [h1]
  have h0 : ⌊(1 : ℚ) / 2⌋ = 0 := by
    rw [Int.floor_eq_zero_iff, Set.mem_Ico]
    norm_num
  have h2 : ⌊(n : ℚ) + 1 / 2⌋ = n := by
    rw [add_comm, Int.floor_add_int, h0, zero_add]
  rw [h2]

/-! ### The isoelectric-point estimate -/

theorem pi_est_raw_eq (s : List Char) :
    pi_est_raw s = ((70 + ((basic_aa s : ℤ) - (acidic_aa s : ℤ)) : ℤ) : ℚ) / 10 := by
  unfold pi_est_raw
  push_cast
  norm_num
  ring

theorem centi_of_deci {q : ℚ} (h : ∃ n : ℤ, q = (n : ℚ) / 10) :
    ∃ n : ℤ, q = (n : ℚ) / 100 := by
  obtain ⟨n, hn⟩ := h
  exact ⟨10 * n, by rw [hn]; push_cast; ring⟩

theorem pi_est_deci (s : List Char) : ∃ n : ℤ, pi_est s = (n : ℚ) / 10 := by
  unfold pi_est
  rcases le_total (pi_est_raw s) (14.0 : ℚ) with h14 | h14
  · rw [min_eq_right h14]
    rcases le_total (pi_est_raw s) (1.0 : ℚ) with h1 | h1
    · rw [max_eq_left h1]
      exact ⟨10, by norm_num⟩
    · rw [max_eq_right h1]
      exact ⟨_, pi_est_raw_eq s⟩
  · rw [min_eq_left h14]
    rw [max_eq_right (by norm_num : (1.0 : ℚ) ≤ 14.0)]
    exact ⟨140, by norm_num⟩

theorem round2_pi_est (s : List Char) : round2 (pi_est s) = pi_est s :=
  round2_centi (centi_of_deci (pi_est_deci s))

theorem pi_est_bounds (s : List Char) : (1 : ℚ) ≤ pi_est s ∧ pi_est s ≤ 14 := by
  unfold pi_est
  constructor
  · have h := le_max_left (1.0 : ℚ) (min 14.0 (pi_est_raw s))
    calc (1 : ℚ) = (1.0 : ℚ) := by norm_num
      _ ≤ _ := h
  · apply max_le
    · norm_num
    · calc min (14.0 : ℚ) (pi_est_raw s) ≤ (14.0 : ℚ) := min_le_left _ _
        _ ≤ 14 := by norm_num

/-! ### Percentages and their presentation -/

theorem sorted_aa_pairwise (comp : List (Char × Nat)) :
    (sorted_aa comp).Pairwise (fun x y => y.2 ≤ x.2) := by
  unfold sorted_aa
  have h := List.sorted_mergeSort
    (fun (a b c : Char × ℚ) (h1 : (fun x y => decide (y.2 ≤ x.2)) a b)
      (h2 : (fun x y => decide (y.2 ≤ x.2)) b c) => by
        simp only [decide_eq_true_eq] at h1 h2 ⊢
        exact le_trans h2 h1)
    (fun (a b : Char × ℚ) => by
      simp only [Bool.or_eq_true, decide_eq_true_eq]
      exact le_total b.2 a.2)
    (aa_percentages comp)
  exact h.imp (fun hab => by simpa using hab)

theorem sorted_aa_perm (comp : List (Char × Nat)) :
    (sorted_aa comp).Perm (aa_percentages comp) :=
  List.mergeSort_perm (aa_percentages comp) _

theorem aa_percentages_form (s : List Char) :
    aa_percentages (aa_count s) =
      (pyKeys s).map (fun a => (a, ((s.count a : ℚ) / (s.length : ℚ)) * 100)) := by
  unfold aa_percentages
  rw [total_aa_aa_count]
  unfold aa_count
  rw [List.map_map]
  rfl

theorem percent_sum (s : List Char) (hs : s ≠ []) :
    ((aa_percentages (aa_count s)).map Prod.snd).sum = 100 := by
  have hlen : s.length ≠ 0 := fun h => hs (List.length_eq_zero.mp h)
  have hlenq : (s.length : ℚ) ≠ 0 := Nat.cast_ne_zero.mpr hlen
  rw [aa_percentages_form, List.map_map]
  calc ((pyKeys s).map (Prod.snd ∘ fun a => (a, ((s.count a : ℚ) / (s.length : ℚ)) * 100))).sum
      = ((pyKeys s).map (fun a => s.count a • ((1 / (s.length : ℚ)) * 100))).sum := by
        apply congrArg
        apply List.map_congr_left
        intro a _
        show ((s.count a : ℚ) / (s.length : ℚ)) * 100 = s.count a • ((1 / (s.length : ℚ)) * 100)
        rw [nsmul_eq_mul]
        ring
    _ = (s.map (fun _ => (1 / (s.length : ℚ)) * 100)).sum := sum_over_pyKeys s _
    _ = s.length • ((1 / (s.length : ℚ)) * 100) := by
        rw [List.map_const', List.sum_replicate]
    _ = 100 := by
        rw [nsmul_eq_mul]
        field_simp

/-! ### The two normalizers against the amended-specification forms -/

theorem pyStartsWith_head (c : Char) (l : List Char) :
    pyStartsWith c l = (l.head? == some c) := by
  cases l <;> rfl

theorem normalize_text_eq_spec (raw : List Char) :
    normalize_text raw = spec_text_norm raw := by
  unfold normalize_text spec_text_norm pyRemoveChar pyUpper
  rw [List.filter_filter]
  apply List.filter_congr
  intro x _
  cases hx : x == ' ' <;> cases hy : x == '\n' <;> simp [bne, hx, hy]

theorem normalize_file_eq_spec (content : List Char) :
    normalize_file content = spec_file_norm content := by
  unfold normalize_file spec_file_norm pyUpper
  have hfil : List.filter (fun line => !pyStartsWith '>' line) (pySplit '\n' (pyStrip content))
      = List.filter (fun l => l.head? != some '>') (pySplit '\n' (pyStrip content)) := by
    apply List.filter_congr
    intro l _
    rw [pyStartsWith_head]
    rfl
  rw [List.map_flatten, List.map_map, hfil]
  rfl

/-! ### Claim theorems -/

/-- C1: a normalized sequence is accepted by is_valid_sequence exactly when
    every one of its characters belongs, case-insensitively, to the 20-letter
    amino-acid alphabet; and for an empty normalized sequence the shell runs
    no composition analysis and issues no prediction request. -/
theorem C1_validation_iff_and_empty_inert :
    (∀ raw : List Char,
      is_valid_sequence (normalize_text raw) = true ↔
        ∀ c ∈ normalize_text raw, c.toUpper ∈ valid_aa)
    ∧ (∀ (raw : List Char) (clicked : Bool) (net : Request → Except (List Char) Response),
        normalize_text raw = [] →
          (app_text_action raw clicked net).analysis_run = false ∧
          (app_text_action raw clicked net).posts = []) := by
  constructor
  · intro raw
    unfold is_valid_sequence pyUpper
    simp [List.all_eq_true]
  · intro raw clicked net h
    unfold app_text_action
    rw [h]
    exact ⟨rfl, rfl⟩

theorem C1_witness :
    (app_text_action [' '] true (fun _ => Except.ok ⟨200, []⟩)).analysis_run = false ∧
    (app_text_action [' '] true (fun _ => Except.ok ⟨200, []⟩)).posts = [] :=
  C1_validation_iff_and_empty_inert.2 [' '] true (fun _ => Except.ok ⟨200, []⟩) (by decide)

/-- C2 counterexample: the computed composition of RPPGFSPFR does not contain
    the pair (P, 2) claimed by the specification: the letter P occurs three
    times in RPPGFSPFR, so the dict maps P to 3. -/
theorem C2_counterexample :
    ('P', 2) ∉ (calculate_protein_properties ("RPPGFSPFR".toList)).aa_composition ∧
    ('P', 3) ∈ (calculate_protein_properties ("RPPGFSPFR".toList)).aa_composition := by
  decide

/-- C2 amended: on input RPPGFSPFR the sequence is valid, the profile length
    is 9, the composition is R 2, P 3, G 1, F 2, S 1, and the reported
    molecular weight equals the per-residue sum of the table entries. -/
theorem C2_amended_example_input :
    is_valid_sequence ("RPPGFSPFR".toList) = true ∧
    (calculate_protein_properties ("RPPGFSPFR".toList)).length = 9 ∧
    (calculate_protein_properties ("RPPGFSPFR".toList)).aa_composition =
      [('R', 2), ('P', 3), ('G', 1), ('F', 2), ('S', 1)] ∧
    (calculate_protein_properties ("RPPGFSPFR".toList)).molecular_weight =
      (("RPPGFSPFR".toList).map aa_weights).sum := by
  refine ⟨by decide, by decide, by decide, ?_⟩
  show round2 (mol_weight _) = _
  rw [round2_centi (mol_weight_centi _), mol_weight_eq_sum]

/-- C3: the estimated isoelectric point returned by
    calculate_protein_properties equals 7 + 0.1 times the difference between
    the basic count and the acidic count, clamped to the interval from 1 to
    14, and in particular always lies in that interval. -/
theorem C3_estimated_pi :
    ∀ s : List Char,
      (calculate_protein_properties s).estimated_pi =
        max 1 (min 14 (7 + (1 / 10) * ((basic_aa s : ℚ) - (acidic_aa s : ℚ)))) ∧
      1 ≤ (calculate_protein_properties s).estimated_pi ∧
      (calculate_protein_properties s).estimated_pi ≤ 14 := by
  intro s
  have heq : (calculate_protein_properties s).estimated_pi = pi_est s := round2_pi_est s
  refine ⟨?_, ?_, ?_⟩
  · rw [heq]
    unfold pi_est
    have h1 : (1.0 : ℚ) = 1 := by norm_num
    have h14 : (14.0 : ℚ) = 14 := by norm_num
    have hin : pi_est_raw s = 7 + (1 / 10) * ((basic_aa s : ℚ) - (acidic_aa s : ℚ)) := by
      unfold pi_est_raw
      push_cast
      norm_num
    rw [h1, h14, hin]
  · rw [heq]
    exact (pi_est_bounds s).1
  · rw [heq]
    exact (pi_est_bounds s).2

/-- C4: the reported molecular weight is additive over concatenation, and for
    every sequence it is the sum over the residues of the fixed per-letter
    constant, letters absent from the table contributing zero. -/
theorem C4_weight_additive :
    ∀ s1 s2 : List Char,
      (calculate_protein_properties (s1 ++ s2)).molecular_weight =
        (calculate_protein_properties s1).molecular_weight +
          (calculate_protein_properties s2).molecular_weight ∧
      (calculate_protein_properties (s1 ++ s2)).molecular_weight =
        ((s1 ++ s2).map aa_weights).sum := by
  have key : ∀ s : List Char,
      (calculate_protein_properties s).molecular_weight = (s.map aa_weights).sum := by
    intro s
    show round2 (mol_weight s) = _
    rw [round2_centi (mol_weight_centi s), mol_weight_eq_sum]
  intro s1 s2
  refine ⟨?_, key _⟩
  rw [key, key, key, List.map_append, List.sum_append]

/-- C5: for a non-empty sequence the percentages are count over total times
    100, computed over exactly the letters present in the sequence, they sum
    to 100 exactly, and the presented list is a permutation of them sorted by
    descending percentage. -/
theorem C5_percentages :
    ∀ s : List Char, s ≠ [] →
      aa_percentages ((calculate_protein_properties s).aa_composition) =
        (pyKeys s).map (fun a => (a, ((s.count a : ℚ) / (s.length : ℚ)) * 100)) ∧
      (∀ a : Char, a ∈ pyKeys s ↔ a ∈ s) ∧
      ((aa_percentages ((calculate_protein_properties s).aa_composition)).map
        Prod.snd).sum = 100 ∧
      (sorted_aa ((calculate_protein_properties s).aa_composition)).Pairwise
        (fun x y => y.2 ≤ x.2) ∧
      (sorted_aa ((calculate_protein_properties s).aa_composition)).Perm
        (aa_percentages ((calculate_protein_properties s).aa_composition)) := by
  intro s hs
  have hcomp : (calculate_protein_properties s).aa_composition = aa_count s := rfl
  rw [hcomp]
  exact ⟨aa_percentages_form s, fun a => pyKeys_mem a s, percent_sum s hs,
    sorted_aa_pairwise _, sorted_aa_perm _⟩

theorem C5_witness :
    ((aa_percentages ((calculate_protein_properties
      ("RPPGFSPFR".toList)).aa_composition)).map Prod.snd).sum = 100 :=
  (C5_percentages ("RPPGFSPFR".toList) (by decide)).2.2.1

/-- C6 counterexample: the file channel keeps a space embedded within a line,
    refuting that every input channel removes embedded spaces: the content
    AC DE normalizes to itself and the space survives. -/
theorem C6_counterexample :
    normalize_file ("AC DE".toList) = "AC DE".toList ∧
    ' ' ∈ normalize_file ("AC DE".toList) := by
  decide

/-- C6 amended: both channels trim surrounding whitespace and uppercase; the
    text channel also removes embedded spaces and newlines; the file channel
    discards the lines beginning with the FASTA marker, trims each remaining
    line of its surrounding whitespace and concatenates them, so newlines are
    gone, but spaces embedded within a line are preserved. -/
theorem C6_amended_normalization :
    (∀ raw : List Char, normalize_text raw = spec_text_norm raw)
    ∧ (∀ content : List Char, normalize_file content = spec_file_norm content)
    ∧ (∀ content : List Char, '\n' ∉ normalize_file content) :=
  ⟨normalize_text_eq_spec, normalize_file_eq_spec, no_newline_normalize_file⟩

/-- C7 counterexample: file-channel normalization is not idempotent: the
    content consisting of a header line followed by a line reading space,
    marker, A, B normalizes to marker, A, B, and a second pass discards that
    as a header line, yielding the empty sequence. -/
theorem C7_counterexample :
    normalize_file (">h\n >AB".toList) = ">AB".toList ∧
    normalize_file (normalize_file (">h\n >AB".toList)) = [] ∧
    normalize_file (normalize_file (">h\n >AB".toList)) ≠
      normalize_file (">h\n >AB".toList) := by
  decide

/-- C7 amended: text-channel normalization is idempotent; file-channel
    normalization is idempotent on every input whose normalized output does
    not begin with the FASTA marker. -/
theorem C7_amended_idempotent :
    (∀ raw : List Char, normalize_text (normalize_text raw) = normalize_text raw)
    ∧ (∀ content : List Char, (normalize_file content).head? ≠ some '>' →
        normalize_file (normalize_file content) = normalize_file content) :=
  ⟨normalize_text_idem, normalize_file_idem⟩

theorem C7_witness :
    normalize_file (normalize_file ("ab\ncd".toList)) = normalize_file ("ab\ncd".toList) :=
  C7_amended_idempotent.2 ("ab\ncd".toList) (by decide)

/-- C8 counterexample: in src/app.py a response with status 500 and body oops
    produces only the fixed failure message, which contains neither the
    digits of the status code nor the body, refuting that a non-200 status
    always yields an error carrying both. -/
theorem C8_counterexample :
    (app_py_action ("RPPGFSPFR".toList)
        (fun _ => Except.ok ⟨500, "oops".toList⟩)).error_msgs =
      ["Prediction failed. Please try again.".toList] ∧
    ¬ ((Nat.repr 500).toList <:+: "Prediction failed. Please try again.".toList) ∧
    ¬ ("oops".toList <:+: "Prediction failed. Please try again.".toList) := by
  decide

/-- C8 amended: each variant issues exactly one POST carrying the raw
    sequence as the body and never retries; status 200 yields the body as
    the payload.  In the richer variant, predict_structure, a non-200 status
    reports an error containing the status code and the body and returns no
    payload, and a transport failure reports a distinct message carrying the
    exception detail and returns no payload.  In the simpler variant a
    non-200 status reports a fixed failure message without status or body,
    and a transport failure propagates as an uncaught exception. -/
theorem C8_amended_prediction_client :
    (∀ (seq : List Char) (net : Request → Except (List Char) Response),
        (predict_structure seq net).posts = [esmatlas_request seq] ∧
        (esmatlas_request seq).body = seq)
    ∧ (∀ (seq : List Char) (net : Request → Except (List Char) Response)
        (resp : Response), net (esmatlas_request seq) = Except.ok resp →
          (resp.status_code = 200 →
            (predict_structure seq net).payload = some resp.text ∧
            (predict_structure seq net).errors = []) ∧
          (resp.status_code ≠ 200 →
            (predict_structure seq net).payload = none ∧
            (predict_structure seq net).errors =
              [service_error_msg resp.status_code resp.text] ∧
            (Nat.repr resp.status_code).toList <:+:
              service_error_msg resp.status_code resp.text ∧
            resp.text <:+: service_error_msg resp.status_code resp.text))
    ∧ (∀ (seq : List Char) (net : Request → Except (List Char) Response)
        (e : List Char), net (esmatlas_request seq) = Except.error e →
          (predict_structure seq net).payload = none ∧
          (predict_structure seq net).errors = [request_failed_msg e] ∧
          e <:+: request_failed_msg e)
    ∧ (∀ (seq : List Char) (net : Request → Except (List Char) Response),
        (pyStrip seq).isEmpty = false →
          (app_py_action seq net).posts = [esmatlas_request seq])
    ∧ (∀ (seq : List Char) (net : Request → Except (List Char) Response)
        (resp : Response), (pyStrip seq).isEmpty = false →
          net (esmatlas_request seq) = Except.ok resp →
          (resp.status_code = 200 →
            (app_py_action seq net).rendered_payload = some resp.text ∧
            (app_py_action seq net).error_msgs = []) ∧
          (resp.status_code ≠ 200 →
            (app_py_action seq net).rendered_payload = none ∧
            (app_py_action seq net).error_msgs =
              ["Prediction failed. Please try again.".toList]))
    ∧ (∀ (seq : List Char) (net : Request → Except (List Char) Response)
        (e : List Char), (pyStrip seq).isEmpty = false →
          net (esmatlas_request seq) = Except.error e →
          (app_py_action seq net).uncaught = some e ∧
          (app_py_action seq net).error_msgs = [] ∧
          (app_py_action seq net).rendered_payload = none) := by
  refine ⟨?_, ?_, ?_, ?_, ?_, ?_⟩
  · intro seq net
    refine ⟨?_, rfl⟩
    simp only [predict_structure]
    cases net (esmatlas_request seq) with
    | ok resp =>
      by_cases h : resp.status_code = 200 <;> simp [h]
    | error e => rfl
  · intro seq net resp hnet
    simp only [predict_structure]
    rw [hnet]
    dsimp only
    constructor
    · intro h200
      rw [if_pos h200]
      exact ⟨rfl, rfl⟩
    · intro hne
      rw [if_neg hne]
      refine ⟨rfl, rfl, ?_, ?_⟩
      · exact ⟨"Error: ".toList, " - ".toList ++ resp.text,
          by simp [service_error_msg]⟩
      · exact ⟨"Error: ".toList ++ (Nat.repr resp.status_code).toList ++ " - ".toList,
          [], by simp [service_error_msg]⟩
  · intro seq net e hnet
    simp only [predict_structure]
    rw [hnet]
    exact ⟨rfl, rfl, ⟨"Request failed: ".toList, [], by simp [request_failed_msg]⟩⟩
  · intro seq net hne
    simp only [app_py_action, hne, Bool.false_eq_true, if_false]
    cases net (esmatlas_request seq) with
    | ok resp =>
      by_cases h : resp.status_code = 200 <;> simp [h]
    | error e => rfl
  · intro seq net resp hne hnet
    simp only [app_py_action, hne, Bool.false_eq_true, if_false]
    rw [hnet]
    dsimp only
    constructor
    · intro h200
      rw [if_pos h200]
      exact ⟨rfl, rfl⟩
    · intro h200
      rw [if_neg h200]
      exact ⟨rfl, rfl⟩
  · intro seq net e hne hnet
    simp only [app_py_action, hne, Bool.false_eq_true, if_false]
    rw [hnet]
    exact ⟨rfl, rfl, rfl⟩

theorem C8_witness :
    (predict_structure ("AC".toList)
        (fun _ => Except.ok ⟨500, "x".toList⟩)).errors =
      [service_error_msg 500 ("x".toList)] ∧
    (app_py_action ("AC".toList)
        (fun _ => Except.error "boom".toList)).uncaught = some ("boom".toList) :=
  ⟨((C8_amended_prediction_client.2.1 ("AC".toList)
      (fun _ => Except.ok ⟨500, "x".toList⟩) ⟨500, "x".toList⟩ rfl).2 (by decide)).2.1,
    (C8_amended_prediction_client.2.2.2.2.2 ("AC".toList)
      (fun _ => Except.error "boom".toList) ("boom".toList) (by decide) rfl).1⟩

/-- C9: on a click with a valid non-empty sequence, a length above 1000
    yields the ceiling error with no analysis and no network call; a length
    above 400 and within the ceiling is allowed but flagged with the warning;
    a length within the ceiling is never rejected on length grounds. -/
theorem C9_length_policy :
    ∀ (raw : List Char) (net : Request → Except (List Char) Response),
      normalize_text raw ≠ [] → is_valid_sequence (normalize_text raw) = true →
      ((normalize_text raw).length > 1000 →
        (app_text_action raw true net).length_error = true ∧
        (app_text_action raw true net).posts = [] ∧
        (app_text_action raw true net).analysis_run = false) ∧
      (400 < (normalize_text raw).length → (normalize_text raw).length ≤ 1000 →
        (app_text_action raw true net).length_warning = true ∧
        (app_text_action raw true net).length_error = false) ∧
      ((normalize_text raw).length ≤ 1000 →
        (app_text_action raw true net).length_error = false) := by
  intro raw net hne hval
  have hempty : (normalize_text raw).isEmpty = false := by
    cases hnr : normalize_text raw
    · exact absurd hnr hne
    · rfl
  simp only [app_text_action, hempty, Bool.false_eq_true, if_false, hval,
    Bool.not_true, Bool.not_false, if_true]
  refine ⟨?_, ?_, ?_⟩
  · intro h1000
    rw [if_pos h1000]
    exact ⟨rfl, rfl, rfl⟩
  · intro h400 h1000
    rw [if_neg (by omega)]
    refine ⟨by simp [h400], rfl⟩
  · intro h1000
    rw [if_neg (by omega)]

set_option maxRecDepth 8000 in
theorem C9_witness :
    (app_text_action (List.replicate 401 'A') true
        (fun _ => Except.ok ⟨200, []⟩)).length_warning = true ∧
    (app_text_action (List.replicate 401 'A') true
        (fun _ => Except.ok ⟨200, []⟩)).length_error = false :=
  ((C9_length_policy (List.replicate 401 'A') (fun _ => Except.ok ⟨200, []⟩)
      (by decide) (by decide)).2.1 (by decide) (by decide))

/-- C10: a 200 response with an empty body is returned by predict_structure
    as an empty-string success, but the truthiness guard of the shell then
    shows no success box, renders nothing, offers no download, and reports no
    error: the action ends silently with the composition analysis as the only
    output. -/
theorem C10_empty_body_silent :
    ∀ (raw : List Char) (net : Request → Except (List Char) Response),
      normalize_text raw ≠ [] → is_valid_sequence (normalize_text raw) = true →
      (normalize_text raw).length ≤ 1000 →
      net (esmatlas_request (normalize_text raw)) = Except.ok ⟨200, []⟩ →
      (predict_structure (normalize_text raw) net).payload = some [] ∧
      (app_text_action raw true net).analysis_run = true ∧
      (app_text_action raw true net).posts = [esmatlas_request (normalize_text raw)] ∧
      (app_text_action raw true net).service_errors = [] ∧
      (app_text_action raw true net).success_shown = false ∧
      (app_text_action raw true net).rendered = false ∧
      (app_text_action raw true net).download = none := by
  intro raw net hne hval hlen hnet
  have hempty : (normalize_text raw).isEmpty = false := by
    cases hnr : normalize_text raw
    · exact absurd hnr hne
    · rfl
  have hpr : predict_structure (normalize_text raw) net =
      { payload := some [], errors := [],
        posts := [esmatlas_request (normalize_text raw)] } := by
    simp only [predict_structure]
    rw [hnet]
    rfl
  simp only [app_text_action, hempty, Bool.false_eq_true, if_false, hval,
    Bool.not_true, Bool.not_false, if_true]
  rw [if_neg (by omega)]
  rw [hpr]
  exact ⟨rfl, rfl, rfl, rfl, rfl, rfl, rfl⟩

theorem C10_witness :
    (app_text_action ("RPPGFSPFR".toList) true
        (fun _ => Except.ok ⟨200, []⟩)).success_shown = false ∧
    (app_text_action ("RPPGFSPFR".toList) true
        (fun _ => Except.ok ⟨200, []⟩)).download = none :=
  ⟨(C10_empty_body_silent ("RPPGFSPFR".toList) (fun _ => Except.ok ⟨200, []⟩)
      (by decide) (by decide) (by decide) rfl).2.2.2.2.1,
    (C10_empty_body_silent ("RPPGFSPFR".toList) (fun _ => Except.ok ⟨200, []⟩)
      (by decide) (by decide) (by decide) rfl).2.2.2.2.2.2⟩

end ProteinApp
